import Mathlib

/-
Verification of the divergence-free RBF interpolation core of LANLGeoMag
(source file Lgm_DFI_RBF.c).  The C code works in double precision; the
embedding idealizes doubles as real numbers and the C library function
exp as Real.exp.  The external GSL linear-algebra routines and the vector
helper Lgm_MatTimesVec are not part of the source under verification;
they are modelled from the specification and marked as such below.
-/

noncomputable section

open Matrix

/-- The Lgm_Vector structure: a 3-component vector with fields x, y, z. -/
structure Lgm_Vector where
  x : ℝ
  y : ℝ
  z : ℝ

/-- Component view of an Lgm_Vector in the order x, y, z.  This is the order
in which Lgm_DFI_RBF_Init concatenates the field vectors into the
right-hand-side array d (d[ii++] = B[i].x; d[ii++] = B[i].y; d[ii++] = B[i].z). -/
def Lgm_Vector.comp (u : Lgm_Vector) : Fin 3 → ℝ :=
  ![u.x, u.y, u.z]

/-- Shallow embedding of Lgm_DFI_RBF_Phi: given a target vector v, a reference
vector v0 and the shape parameter eps, it fills the 3x3 matrix-valued RBF,
following the source line by line (x = v->x - v0->x; ...; f = 4.0*eps;
g = f*eps; psi = exp(-eps*r2); Phi[0][0] = (f - g*(y2+z2))*psi; ...;
Phi[1][0] = Phi[0][1]; Phi[2][0] = Phi[0][2]; Phi[2][1] = Phi[1][2]). -/
def Lgm_DFI_RBF_Phi (v v0 : Lgm_Vector) (eps : ℝ) : Matrix (Fin 3) (Fin 3) ℝ :=
  let x := v.x - v0.x
  let y := v.y - v0.y
  let z := v.z - v0.z
  let x2 := x * x
  let y2 := y * y
  let z2 := z * z
  let r2 := x2 + y2 + z2
  let xy := x * y
  let yz := y * z
  let xz := x * z
  let f := 4 * eps
  let g := f * eps
  let psi := Real.exp (-eps * r2)
  Matrix.of
    ![![(f - g * (y2 + z2)) * psi, g * xy * psi, g * xz * psi],
      ![g * xy * psi, (f - g * (x2 + z2)) * psi, g * yz * psi],
      ![g * xz * psi, g * yz * psi, (f - g * (x2 + y2)) * psi]]

/-- Modelled from the spec: Lgm_MatTimesVec is declared in the repository
outside the sources under verification; per the specification it computes a
3x3 matrix times 3-vector product (result = Phi * u). -/
def Lgm_MatTimesVec (M : Matrix (Fin 3) (Fin 3) ℝ) (u : Lgm_Vector) : Lgm_Vector :=
  ⟨M 0 0 * u.x + M 0 1 * u.y + M 0 2 * u.z,
   M 1 0 * u.x + M 1 1 * u.y + M 1 2 * u.z,
   M 2 0 * u.x + M 2 1 * u.y + M 2 2 * u.z⟩

/-- The Lgm_DFI_RBF_Info structure: the shape parameter eps, the copied sample
positions (field rbf->v, filled by rbf->v[i] = v[i]) and the solved weight
vector of length 3n (field rbf->c, a gsl_vector).  The integer fields n and
n3 of the C structure are carried by the index types. -/
structure Lgm_DFI_RBF_Info (n : ℕ) where
  eps : ℝ
  v : Fin n → Lgm_Vector
  c : Fin (3 * n) → ℝ

/-- The local array a of Lgm_DFI_RBF_Init as a function of the inputs.  The
loops write a[3i+p][3j+q] = Phi(v_i, v_j, eps)[p][q] for every ordered pair
(i, j) and every 0 <= p, q < 3, so row r, column s holds the
(r mod 3, s mod 3) entry of Phi(v_(r div 3), v_(s div 3), eps). -/
def Lgm_DFI_RBF_a {n : ℕ} (v : Fin n → Lgm_Vector) (eps : ℝ) :
    Matrix (Fin (3 * n)) (Fin (3 * n)) ℝ :=
  Matrix.of fun r s =>
    Lgm_DFI_RBF_Phi (v ⟨r.val / 3, by have := r.isLt; omega⟩)
      (v ⟨s.val / 3, by have := s.isLt; omega⟩) eps
      ⟨r.val % 3, by omega⟩ ⟨s.val % 3, by omega⟩

/-- The local array d of Lgm_DFI_RBF_Init as a function of the inputs: it is
filled as B[0].x, B[0].y, B[0].z, B[1].x, ... in the caller-supplied order. -/
def Lgm_DFI_RBF_d {n : ℕ} (B : Fin n → Lgm_Vector) : Fin (3 * n) → ℝ :=
  fun k => (B ⟨k.val / 3, by have := k.isLt; omega⟩).comp ⟨k.val % 3, by omega⟩

/-- Modelled from the spec: the external GSL calls gsl_linalg_cholesky_decomp
followed by gsl_linalg_cholesky_solve solve A c = d; when A is positive
definite the returned solution is A⁻¹ d, which is what this model returns. -/
def gsl_linalg_cholesky_solve {m : ℕ} (A : Matrix (Fin m) (Fin m) ℝ)
    (d : Fin m → ℝ) : Fin m → ℝ :=
  A⁻¹.mulVec d

/-- Modelled from the spec: the factorization step gsl_linalg_cholesky_decomp
fails exactly when the matrix is not positive definite.  The source calls it
without inspecting this status. -/
def gsl_linalg_cholesky_decomp_fails {m : ℕ} (A : Matrix (Fin m) (Fin m) ℝ) : Prop :=
  ¬ A.PosDef

/-- The structure built by Lgm_DFI_RBF_Init: eps is stored, the positions are
copied elementwise (for i in 0..n-1, rbf->v[i] = v[i]), and rbf->c receives
the Cholesky solution of the assembled system a c = d. -/
def Lgm_DFI_RBF_Init_info {n : ℕ} (v B : Fin n → Lgm_Vector) (eps : ℝ) :
    Lgm_DFI_RBF_Info n :=
  { eps := eps
    v := fun i => v i
    c := gsl_linalg_cholesky_solve (Lgm_DFI_RBF_a v eps) (Lgm_DFI_RBF_d B) }

/-- Shallow embedding of Lgm_DFI_RBF_Init.  The C function returns a pointer
to the filled structure and has no error exit at all: it performs no
parameter validation, and the status of gsl_linalg_cholesky_decomp is
discarded.  The Option result represents the construction outcome visible to
the caller (some context versus a construction failure); the source always
returns some. -/
def Lgm_DFI_RBF_Init {n : ℕ} (v B : Fin n → Lgm_Vector) (eps : ℝ) :
    Option (Lgm_DFI_RBF_Info n) :=
  some (Lgm_DFI_RBF_Init_info v B eps)

/-- Lgm_DFI_RBF_Init together with the final contents of the caller arrays v
and B.  The body of the C function only reads v and B (the copy
rbf->v[i] = v[i] reads v; the d-filling loop reads B) and writes to its own
arrays d, a, Phi and to the fresh rbf structure, so both caller arrays come
out of the call unchanged. -/
def Lgm_DFI_RBF_Init_run {n : ℕ} (v B : Fin n → Lgm_Vector) (eps : ℝ) :
    Option (Lgm_DFI_RBF_Info n) × (Fin n → Lgm_Vector) × (Fin n → Lgm_Vector) :=
  (Lgm_DFI_RBF_Init v B eps, v, B)

/-- Shallow embedding of Lgm_DFI_RBF_Eval.  The output argument B is first
set to (0,0,0) and then, for j = 0..n-1, incremented by
Lgm_MatTimesVec(Phi(v, rbf->v[j], rbf->eps), rbf->v[j]); the result is the
final content of B.  Note that the source passes the stored position
rbf->v[j], not a weight from rbf->c, as the vector operand. -/
def Lgm_DFI_RBF_Eval {n : ℕ} (v B : Lgm_Vector) (rbf : Lgm_DFI_RBF_Info n) :
    Lgm_Vector :=
  Fin.foldl n
    (fun acc j =>
      let W := Lgm_MatTimesVec (Lgm_DFI_RBF_Phi v (rbf.v j) rbf.eps) (rbf.v j)
      ⟨acc.x + W.x, acc.y + W.y, acc.z + W.z⟩)
    ⟨0, 0, 0⟩

/-- The evaluator described by the specification: starting from the zero
vector, sum over j the product of Phi(v, positions[j], eps) with the solved
weight 3-vector c_j = (c[3j], c[3j+1], c[3j+2]). -/
def Lgm_DFI_RBF_Eval_claimed {n : ℕ} (v : Lgm_Vector) (rbf : Lgm_DFI_RBF_Info n) :
    Lgm_Vector :=
  Fin.foldl n
    (fun acc j =>
      let cj : Lgm_Vector :=
        ⟨rbf.c ⟨3 * j.val, by have := j.isLt; omega⟩,
         rbf.c ⟨3 * j.val + 1, by have := j.isLt; omega⟩,
         rbf.c ⟨3 * j.val + 2, by have := j.isLt; omega⟩⟩
      let W := Lgm_MatTimesVec (Lgm_DFI_RBF_Phi v (rbf.v j) rbf.eps) cj
      ⟨acc.x + W.x, acc.y + W.y, acc.z + W.z⟩)
    ⟨0, 0, 0⟩

/-- At zero displacement every difference is 0, so every squared or mixed
term vanishes and psi = exp 0 = 1: Phi(v, v, eps) is 4 eps times the
identity matrix. -/
theorem Lgm_DFI_RBF_Phi_self (v : Lgm_Vector) (eps : ℝ) :
    Lgm_DFI_RBF_Phi v v eps = Matrix.diagonal (fun _ => 4 * eps) := by
  ext i j
  fin_cases i <;> fin_cases j <;>
    simp [Lgm_DFI_RBF_Phi, Matrix.diagonal, sub_self, Real.exp_zero,
      Matrix.vecHead, Matrix.vecTail]

/-- Claim C9: the kernel evaluated at zero displacement is a multiple of the
identity: Phi(v, v, eps) has all three diagonal entries equal to 4 eps and
all off-diagonal entries equal to 0, i.e. it is the diagonal matrix with
constant entry 4 eps. -/
theorem Lgm_DFI_RBF_Phi_zero_displacement (v : Lgm_Vector) (eps : ℝ) :
    Lgm_DFI_RBF_Phi v v eps = Matrix.diagonal (fun _ => 4 * eps) :=
  Lgm_DFI_RBF_Phi_self v eps

/-- Claim C10: the evaluator result does not depend on the prior contents of
the caller-supplied output vector, because the output is set to (0,0,0)
before the accumulation loop. -/
theorem Lgm_DFI_RBF_Eval_output_independent {n : ℕ} (v b1 b2 : Lgm_Vector)
    (rbf : Lgm_DFI_RBF_Info n) :
    Lgm_DFI_RBF_Eval v b1 rbf = Lgm_DFI_RBF_Eval v b2 rbf := rfl

/-- The kernel matrix exactly as the specification writes it (section 4.1):
with (x, y, z) = v - v0, r2 = x^2 + y^2 + z^2, psi = exp(-eps r2),
f = 4 eps and g = 4 eps^2. -/
def Phi_spec (v v0 : Lgm_Vector) (eps : ℝ) : Matrix (Fin 3) (Fin 3) ℝ :=
  let x := v.x - v0.x
  let y := v.y - v0.y
  let z := v.z - v0.z
  let r2 := x ^ 2 + y ^ 2 + z ^ 2
  let psi := Real.exp (-eps * r2)
  let f := 4 * eps
  let g := 4 * eps ^ 2
  Matrix.of
    ![![(f - g * (y ^ 2 + z ^ 2)) * psi, g * x * y * psi, g * x * z * psi],
      ![g * x * y * psi, (f - g * (x ^ 2 + z ^ 2)) * psi, g * y * z * psi],
      ![g * x * z * psi, g * y * z * psi, (f - g * (x ^ 2 + y ^ 2)) * psi]]

/-- Claim C3: for every pair of points and every eps > 0, the kernel
evaluator returns the 3x3 matrix stated in the specification, entry for
entry. -/
theorem Lgm_DFI_RBF_Phi_formula (v v0 : Lgm_Vector) (eps : ℝ) (heps : 0 < eps) :
    Lgm_DFI_RBF_Phi v v0 eps = Phi_spec v v0 eps := by
  ext i j
  fin_cases i <;> fin_cases j <;>
    (simp [Lgm_DFI_RBF_Phi, Phi_spec, Matrix.vecHead, Matrix.vecTail]; ring_nf)

/-- Claim C7: for all points v, v0 and every eps > 0, the kernel matrix is
symmetric (Phi[i][j] = Phi[j][i] for all i, j) and invariant under swapping
the two points (Phi(v, v0, eps) = Phi(v0, v, eps)). -/
theorem Lgm_DFI_RBF_Phi_symm (v v0 : Lgm_Vector) (eps : ℝ) (heps : 0 < eps) :
    (∀ i j, Lgm_DFI_RBF_Phi v v0 eps i j = Lgm_DFI_RBF_Phi v v0 eps j i) ∧
      Lgm_DFI_RBF_Phi v v0 eps = Lgm_DFI_RBF_Phi v0 v eps := by
  constructor
  · intro i j
    fin_cases i <;> fin_cases j <;>
      (simp [Lgm_DFI_RBF_Phi, Matrix.vecHead, Matrix.vecTail]; try ring_nf)
  · ext i j
    fin_cases i <;> fin_cases j <;>
      (simp [Lgm_DFI_RBF_Phi, Matrix.vecHead, Matrix.vecTail]; ring_nf)

/-- An empty sample array (n = 0), used to exercise construction with an
invalid sample count. -/
def vEmpty : Fin 0 → Lgm_Vector := fun i => i.elim0

/-- The single sample position of the spec's N = 1 scenario: the origin. -/
def v1 : Fin 1 → Lgm_Vector := ![⟨0, 0, 0⟩]

/-- The single field sample of the spec's N = 1 scenario: (5, 0, 0). -/
def B1 : Fin 1 → Lgm_Vector := ![⟨5, 0, 0⟩]

/-- Two identical sample positions (both the origin). -/
def vdup : Fin 2 → Lgm_Vector := ![⟨0, 0, 0⟩, ⟨0, 0, 0⟩]

/-- Field samples accompanying vdup. -/
def Bdup : Fin 2 → Lgm_Vector := ![⟨1, 0, 0⟩, ⟨1, 0, 0⟩]

/-- Claim C4 (counterexample): with n = 0 samples and eps = -1, both invalid
per the claim, construction still returns a context rather than failing: the
source performs no parameter validation and has no InvalidParameter path. -/
theorem Lgm_DFI_RBF_Init_no_validation_cex :
    (0 : ℕ) < 1 ∧ (-1 : ℝ) ≤ 0 ∧ Lgm_DFI_RBF_Init vEmpty vEmpty (-1) ≠ none :=
  ⟨Nat.one_pos, by norm_num, by simp [Lgm_DFI_RBF_Init]⟩

/-- Claim C4 (amended): construction performs no validation at all: for every
n (including n = 0) and every eps (including eps ≤ 0) it returns the filled
context, so no InvalidParameter failure ever reaches the caller. -/
theorem Lgm_DFI_RBF_Init_always_succeeds {n : ℕ} (v B : Fin n → Lgm_Vector)
    (eps : ℝ) :
    Lgm_DFI_RBF_Init v B eps = some (Lgm_DFI_RBF_Init_info v B eps) := rfl

/-- The direction e_0 - e_3, along which the quadratic form of the assembled
matrix vanishes when samples 0 and 1 share the same position. -/
def xdup : Fin (3 * 2) → ℝ :=
  Pi.single ⟨0, by omega⟩ 1 - Pi.single ⟨3, by omega⟩ 1

/-- With two identical sample positions, entries (0,0), (0,3), (3,0) and
(3,3) of the assembled matrix coincide, so the quadratic form vanishes along
the nonzero direction xdup and the matrix is not positive definite. -/
theorem Lgm_DFI_RBF_a_dup_not_posDef : ¬ (Lgm_DFI_RBF_a vdup 1).PosDef := by
  intro h
  have hx : xdup ≠ 0 := by
    intro h0
    have h1 := congrFun h0 ⟨0, by omega⟩
    simp [xdup, Pi.single_apply] at h1
  have hq := h.2 _ hx
  have e1 : Lgm_DFI_RBF_a vdup 1 ⟨0, by omega⟩ ⟨3, by omega⟩ =
      Lgm_DFI_RBF_a vdup 1 ⟨0, by omega⟩ ⟨0, by omega⟩ := rfl
  have e2 : Lgm_DFI_RBF_a vdup 1 ⟨3, by omega⟩ ⟨0, by omega⟩ =
      Lgm_DFI_RBF_a vdup 1 ⟨0, by omega⟩ ⟨0, by omega⟩ := rfl
  have e3 : Lgm_DFI_RBF_a vdup 1 ⟨3, by omega⟩ ⟨3, by omega⟩ =
      Lgm_DFI_RBF_a vdup 1 ⟨0, by omega⟩ ⟨0, by omega⟩ := rfl
  simp only [xdup, star_sub, star_trivial, Matrix.mulVec_sub, Matrix.sub_dotProduct,
    Matrix.dotProduct_sub, Matrix.mulVec_single, Matrix.single_dotProduct,
    mul_one, one_mul] at hq
  rw [e1, e2, e3] at hq
  simp at hq

/-- Claim C5 (counterexample): with two identical positions the assembled
matrix is not positive definite, yet construction does not fail: the
factorization status is discarded and a context is returned anyway. -/
theorem Lgm_DFI_RBF_Init_singular_cex :
    vdup 0 = vdup 1 ∧ ¬ (Lgm_DFI_RBF_a vdup 1).PosDef ∧
      Lgm_DFI_RBF_Init vdup Bdup 1 ≠ none :=
  ⟨rfl, Lgm_DFI_RBF_a_dup_not_posDef, by simp [Lgm_DFI_RBF_Init]⟩

/-- Claim C5 (amended): when the assembled matrix is not positive definite
construction still returns the filled context: the failure status of the
Cholesky decomposition is ignored, so no SingularSystem error is surfaced to
the caller, who receives a context carrying unusable weights. -/
theorem Lgm_DFI_RBF_Init_ignores_decomp_failure {n : ℕ}
    (v B : Fin n → Lgm_Vector) (eps : ℝ)
    (h : gsl_linalg_cholesky_decomp_fails (Lgm_DFI_RBF_a v eps)) :
    Lgm_DFI_RBF_Init v B eps = some (Lgm_DFI_RBF_Init_info v B eps) := rfl

/-- Witness for the amended claim C5 at the duplicate-position input. -/
theorem Lgm_DFI_RBF_Init_ignores_decomp_failure_witness :
    gsl_linalg_cholesky_decomp_fails (Lgm_DFI_RBF_a vdup 1) ∧
      Lgm_DFI_RBF_Init vdup Bdup 1 = some (Lgm_DFI_RBF_Init_info vdup Bdup 1) :=
  ⟨Lgm_DFI_RBF_a_dup_not_posDef,
    Lgm_DFI_RBF_Init_ignores_decomp_failure vdup Bdup 1 Lgm_DFI_RBF_a_dup_not_posDef⟩

/-- Claim C8: construction mutates neither caller array (both come out of the
call exactly as they went in), and the context stores its own elementwise
snapshot of the positions taken at construction time. -/
theorem Lgm_DFI_RBF_Init_no_mutation {n : ℕ} (v B : Fin n → Lgm_Vector) (eps : ℝ) :
    (Lgm_DFI_RBF_Init_run v B eps).2.1 = v ∧
      (Lgm_DFI_RBF_Init_run v B eps).2.2 = B ∧
      ∀ i, (Lgm_DFI_RBF_Init_info v B eps).v i = v i :=
  ⟨rfl, rfl, fun _ => rfl⟩

/-- Claim C6: the assembler places Phi(positions[i], positions[j], eps) as the
3x3 block at rows [3i, 3i+3) and columns [3j, 3j+3) of a, and d concatenates
the field components x, y, z in the caller-supplied sample order. -/
theorem Lgm_DFI_RBF_assembly_blocks {n : ℕ} (v B : Fin n → Lgm_Vector) (eps : ℝ)
    (i j p q : ℕ) (hi : i < n) (hj : j < n) (hp : p < 3) (hq : q < 3) :
    Lgm_DFI_RBF_a v eps ⟨3 * i + p, by omega⟩ ⟨3 * j + q, by omega⟩ =
        Lgm_DFI_RBF_Phi (v ⟨i, hi⟩) (v ⟨j, hj⟩) eps ⟨p, hp⟩ ⟨q, hq⟩ ∧
      Lgm_DFI_RBF_d B ⟨3 * i + p, by omega⟩ = (B ⟨i, hi⟩).comp ⟨p, hp⟩ := by
  constructor
  · simp only [Lgm_DFI_RBF_a, Matrix.of_apply]
    congr <;> omega
  · simp only [Lgm_DFI_RBF_d]
    congr <;> omega

/-- Witness for claim C6: block placement checked at n = 1 with
i = j = p = q = 0 on the single-point scenario data. -/
theorem Lgm_DFI_RBF_assembly_blocks_witness :
    (0 : ℕ) < 1 ∧ (0 : ℕ) < 3 ∧
      (Lgm_DFI_RBF_a v1 1 ⟨3 * 0 + 0, by omega⟩ ⟨3 * 0 + 0, by omega⟩ =
          Lgm_DFI_RBF_Phi (v1 ⟨0, Nat.one_pos⟩) (v1 ⟨0, Nat.one_pos⟩) 1
            ⟨0, by omega⟩ ⟨0, by omega⟩ ∧
        Lgm_DFI_RBF_d B1 ⟨3 * 0 + 0, by omega⟩ = (B1 ⟨0, Nat.one_pos⟩).comp ⟨0, by omega⟩) :=
  ⟨Nat.one_pos, by omega,
    Lgm_DFI_RBF_assembly_blocks v1 B1 1 0 0 0 0 Nat.one_pos Nat.one_pos
      (by omega) (by omega)⟩

/-- On the single-origin-sample system (n = 1, position at the origin,
eps = 1) the assembled matrix is the single kernel block at zero
displacement, i.e. 4 times the identity. -/
theorem Lgm_DFI_RBF_a_v1 : Lgm_DFI_RBF_a v1 1 = (4 : ℝ) • 1 := by
  funext r s
  fin_cases r <;> fin_cases s <;>
    (simp [Lgm_DFI_RBF_a, Lgm_DFI_RBF_Phi_self, v1, Matrix.one_apply]; try norm_num)

/-- The inverse of the single-origin-sample system matrix. -/
theorem Lgm_DFI_RBF_a_v1_inv : (Lgm_DFI_RBF_a v1 1)⁻¹ = (4⁻¹ : ℝ) • 1 := by
  apply Matrix.inv_eq_right_inv
  rw [Lgm_DFI_RBF_a_v1, smul_mul_assoc, Matrix.one_mul, smul_smul]
  norm_num

/-- The weights stored by construction on the single-origin-sample system:
one quarter of the right-hand side. -/
theorem Lgm_DFI_RBF_c_v1 :
    (Lgm_DFI_RBF_Init_info v1 B1 1).c = fun k => 4⁻¹ * Lgm_DFI_RBF_d B1 k := by
  show gsl_linalg_cholesky_solve (Lgm_DFI_RBF_a v1 1) (Lgm_DFI_RBF_d B1) = _
  unfold gsl_linalg_cholesky_solve
  rw [Lgm_DFI_RBF_a_v1_inv, Matrix.smul_mulVec_assoc, Matrix.one_mulVec]
  funext k
  simp

/-- What the source evaluator produces on the single-origin-sample context at
the training position: the zero vector, because the loop multiplies the
kernel block by the stored position (the origin), not by the weights. -/
theorem Lgm_DFI_RBF_Eval_v1 :
    Lgm_DFI_RBF_Eval ⟨0, 0, 0⟩ ⟨0, 0, 0⟩ (Lgm_DFI_RBF_Init_info v1 B1 1) = ⟨0, 0, 0⟩ := by
  show Fin.foldl 1 _ _ = _
  rw [Fin.foldl_succ, Fin.foldl_zero]
  simp [Lgm_DFI_RBF_Init_info, Lgm_MatTimesVec, v1]

/-- What the specification's evaluator produces on the same context at the
training position: the training vector (5, 0, 0). -/
theorem Lgm_DFI_RBF_Eval_claimed_v1 :
    Lgm_DFI_RBF_Eval_claimed ⟨0, 0, 0⟩ (Lgm_DFI_RBF_Init_info v1 B1 1) = ⟨5, 0, 0⟩ := by
  have hc := congrFun Lgm_DFI_RBF_c_v1
  have hv0 : (Lgm_DFI_RBF_Init_info v1 B1 1).v 0 = ⟨0, 0, 0⟩ := rfl
  have heps1 : (Lgm_DFI_RBF_Init_info v1 B1 1).eps = 1 := rfl
  have hd0 : Lgm_DFI_RBF_d B1 ⟨0, by omega⟩ = 5 := rfl
  have hd1 : Lgm_DFI_RBF_d B1 ⟨1, by omega⟩ = 0 := rfl
  have hd2 : Lgm_DFI_RBF_d B1 ⟨2, by omega⟩ = 0 := rfl
  show Fin.foldl 1 _ _ = _
  rw [Fin.foldl_succ, Fin.foldl_zero]
  simp [hc, hv0, heps1, hd0, hd1, hd2, Lgm_DFI_RBF_Phi_self, Lgm_MatTimesVec]
  exact ⟨rfl, rfl, rfl⟩

/-- Claim C1 (code bug): on the context constructed from one sample at the
origin with field value (5,0,0) and eps = 1, the source evaluator returns
(0,0,0) while the sum of kernel-weighted solved weights prescribed by the
specification is (5,0,0): the evaluation loop passes the stored position
rbf->v[j] instead of the weight vector c_j to the matrix-vector product. -/
theorem Lgm_DFI_RBF_Eval_ignores_weights :
    Lgm_DFI_RBF_Eval ⟨0, 0, 0⟩ ⟨0, 0, 0⟩ (Lgm_DFI_RBF_Init_info v1 B1 1) = ⟨0, 0, 0⟩ ∧
      Lgm_DFI_RBF_Eval_claimed ⟨0, 0, 0⟩ (Lgm_DFI_RBF_Init_info v1 B1 1) = ⟨5, 0, 0⟩ ∧
      Lgm_DFI_RBF_Eval ⟨0, 0, 0⟩ ⟨0, 0, 0⟩ (Lgm_DFI_RBF_Init_info v1 B1 1) ≠
        Lgm_DFI_RBF_Eval_claimed ⟨0, 0, 0⟩ (Lgm_DFI_RBF_Init_info v1 B1 1) := by
  refine ⟨Lgm_DFI_RBF_Eval_v1, Lgm_DFI_RBF_Eval_claimed_v1, ?_⟩
  rw [Lgm_DFI_RBF_Eval_v1, Lgm_DFI_RBF_Eval_claimed_v1]
  intro hEq
  have hx := congrArg Lgm_Vector.x hEq
  norm_num at hx

/-- Claim C2 (code bug): at the specification's own N = 1 scenario (one
sample at the origin, field value (5,0,0), eps = 1), evaluating the
constructed context at the training position produces (0,0,0) instead of
reproducing the training vector (5,0,0). -/
theorem Lgm_DFI_RBF_Eval_not_interpolating :
    Lgm_DFI_RBF_Eval ⟨0, 0, 0⟩ ⟨0, 0, 0⟩ (Lgm_DFI_RBF_Init_info v1 B1 1) = ⟨0, 0, 0⟩ ∧
      B1 0 = ⟨5, 0, 0⟩ ∧ (⟨0, 0, 0⟩ : Lgm_Vector) ≠ ⟨5, 0, 0⟩ := by
  refine ⟨Lgm_DFI_RBF_Eval_v1, rfl, ?_⟩
  intro hEq
  have hx := congrArg Lgm_Vector.x hEq
  norm_num at hx

/-- Witness for claim C3: the kernel formula instantiated at the concrete
input v = (1,2,3), v0 = (0,1,1), eps = 1, with the hypothesis 0 < 1
discharged explicitly. -/
theorem Lgm_DFI_RBF_Phi_formula_witness :
    (0 : ℝ) < 1 ∧
      Lgm_DFI_RBF_Phi ⟨1, 2, 3⟩ ⟨0, 1, 1⟩ 1 = Phi_spec ⟨1, 2, 3⟩ ⟨0, 1, 1⟩ 1 :=
  ⟨zero_lt_one, Lgm_DFI_RBF_Phi_formula ⟨1, 2, 3⟩ ⟨0, 1, 1⟩ 1 zero_lt_one⟩

/-- Witness for claim C7: symmetry and swap invariance instantiated at the
concrete input v = (1,0,0), v0 = (0,1,0), eps = 1. -/
theorem Lgm_DFI_RBF_Phi_symm_witness :
    (0 : ℝ) < 1 ∧
      ((∀ i j, Lgm_DFI_RBF_Phi ⟨1, 0, 0⟩ ⟨0, 1, 0⟩ 1 i j =
          Lgm_DFI_RBF_Phi ⟨1, 0, 0⟩ ⟨0, 1, 0⟩ 1 j i) ∧
        Lgm_DFI_RBF_Phi ⟨1, 0, 0⟩ ⟨0, 1, 0⟩ 1 = Lgm_DFI_RBF_Phi ⟨0, 1, 0⟩ ⟨1, 0, 0⟩ 1) :=
  ⟨zero_lt_one, Lgm_DFI_RBF_Phi_symm ⟨1, 0, 0⟩ ⟨0, 1, 0⟩ 1 zero_lt_one⟩
